import Mathlib

/-!
Shallow embedding of the gadget/grid/agent core of the `gadget-up-2` repository
(`src/gadget.rs`, `src/grid.rs`), together with theorems settling the frozen
claims about it.

Modelling conventions:
* `u32`/`usize` values are modelled as `Nat`; `i32` values as `Int` (no claim
  here depends on wrap-around, and all concrete inputs are tiny).
* `f64` port coordinates are modelled as `ℚ`; every coordinate the source
  produces is a multiple of 1/2, represented exactly by `f64`, and no rounding
  arithmetic occurs, so this is exact.
* `FnvHashSet`/`FnvHashMap` have no canonical iteration order; a hash set is
  modelled as a duplicate-free list in insertion order, and a hash map as a
  function `key → Option value` (insert overwrites, matching the source).
* A Rust operation that can panic is modelled as an `Option`-returning
  function, `none` standing for the panic.
-/

namespace GadgetUp

/-- Pair of state and port, in the order the source uses it: `(state, port)`.
(The source's type alias `SP` is declared as `(Port, State)` but every use
site builds and consumes `(state, port)`.) -/
abbrev SP := Nat × Nat

/-- A traversal `((s0,p0),(s1,p1))`. -/
abbrev SPSP := SP × SP

/-- Integer cell coordinates (`i32` pair). -/
abbrev XY := Int × Int

/-- Width/height pair (`u32` pair). -/
abbrev WH := Nat × Nat

/-- Insertion into the traversal set: the `FnvHashSet` is modelled as a
duplicate-free list in insertion order. -/
def insertTraversal (s : List SPSP) (t : SPSP) : List SPSP :=
  if t ∈ s then s else s ++ [t]

/-- Definition of a gadget: ports, states, transitions (`GadgetDef` in
`gadget.rs`). -/
structure GadgetDef where
  num_ports : Nat
  num_states : Nat
  traversals : List SPSP
  deriving Repr, DecidableEq

/-- Constructs the "nope" gadget (`GadgetDef::new`). -/
def GadgetDef.new (num_states num_ports : Nat) : GadgetDef :=
  { num_ports := num_ports, num_states := num_states, traversals := [] }

/-- Builds a def from an iterator of traversals (`GadgetDef::from_traversals`);
collecting into the hash set is modelled as a dedup-on-insert fold. -/
def GadgetDef.from_traversals (num_states num_ports : Nat) (ts : List SPSP) :
    GadgetDef :=
  { num_ports := num_ports, num_states := num_states,
    traversals := ts.foldl insertTraversal [] }

/-- Gets all destinations allowed in some state and port
(`GadgetDef::targets_from_state_port`): filter the stored traversals on the
source pair, keep the destination pair. -/
def GadgetDef.targets_from_state_port (d : GadgetDef) (sp : SP) : List SP :=
  (d.traversals.filter (fun t => t.1 == sp)).map (fun t => t.2)

/-- A placed gadget instance (`Gadget` in `gadget.rs`); the render cache and
dirty flag are rendering-only and omitted. The field `gdef` stands for the
source's `def` field (a Lean keyword). -/
structure Gadget where
  gdef : GadgetDef
  size : WH
  port_map : List (Option Nat)
  state : Nat
  deriving Repr, DecidableEq

/-- Lookup of the port at a slot (`Gadget::port`). The source indexes
`self.port_map[index]`, which panics out of bounds: `none` models the panic,
`some o` the stored entry. -/
def Gadget.port (g : Gadget) (index : Nat) : Option (Option Nat) :=
  g.port_map.get? index

/-- One `HashMap::insert` step of `Gadget::port_map_inv`'s collect: skip an
empty slot, otherwise map the slot's port to the slot index, overwriting. -/
def pmInvStep (m : Nat → Option Nat) (ip : Nat × Option Nat) : Nat → Option Nat :=
  match ip.2 with
  | none => m
  | some p => fun q => if q = p then some ip.1 else m q

/-- Inverse of the port map (`Gadget::port_map_inv`): fold the enumerated
slot array into a hash map, a later slot overwriting an earlier one holding
the same port, exactly as repeated `HashMap::insert` does. -/
def Gadget.port_map_inv (g : Gadget) : Nat → Option Nat :=
  g.port_map.enum.foldl pmInvStep (fun _ => none)

/-- Rotates the ports by `num_spaces`, positive meaning counterclockwise
(`Gadget::rotate_ports`). The source computes
`(-num_spaces).rem_euclid(len as i32)`, which panics when `len = 0`
(remainder by zero): `none` models that panic. Otherwise the new slot array
is `cycle().skip(rem).take(len)`, i.e. a left rotation by `rem`. -/
def Gadget.rotate_ports (g : Gadget) (num_spaces : Int) : Option Gadget :=
  if g.port_map.length = 0 then none
  else
    let rem : Nat := ((-num_spaces) % (g.port_map.length : Int)).toNat
    some { g with port_map := g.port_map.drop rem ++ g.port_map.take rem }

/-- Reverses the slot array (`Gadget::flip_ports`). -/
def Gadget.flip_ports (g : Gadget) : Gadget :=
  { g with port_map := g.port_map.reverse }

/-- Adds 1 to the state, wrapping by `num_states` (`Gadget::cycle_state`).
The source computes `(state + 1) % num_states`, which panics when
`num_states = 0`: `none` models that panic. -/
def Gadget.cycle_state (g : Gadget) : Option Gadget :=
  if g.gdef.num_states = 0 then none
  else some { g with state := (g.state + 1) % g.gdef.num_states }

/-! Directions. The helpers `dot_ex` and `right_ccw` live in the repository's
`math.rs`, which is not among the examined sources. -/

/-- Modelled from the spec: `Vector2Ex::dot_ex` of the missing `math.rs` is
the plane dot product (the spec describes the opposite-direction test as
"dot product −1"). -/
def dotEx (a b : XY) : Int := a.1 * b.1 + a.2 * b.2

/-- Modelled from the spec: `Vector2Ex::right_ccw` of the missing `math.rs`
rotates a vector by 90° counter-clockwise (the spec calls
`direction.right_ccw() == input` the "left turn attempt", i.e. facing
rotated 90° counter-clockwise). -/
def rightCcw (v : XY) : XY := (-v.2, v.1)

/-- The four cardinal unit vectors an agent's facing ranges over. -/
def isCardinal (v : XY) : Prop :=
  v = (1, 0) ∨ v = (0, 1) ∨ v = (-1, 0) ∨ v = (0, -1)

instance (v : XY) : Decidable (isCardinal v) := by
  unfold isCardinal; infer_instance

/-- Option xor (`Option::xor` in Rust): `some` exactly when one side is. -/
def optXor (a b : Option α) : Option α :=
  match a, b with
  | some x, none => some x
  | none, some y => some y
  | _, _ => none

/-- Candidate selection inside `Agent::advance` (`gadget.rs` lines 553-571),
given the four buckets, the agent's facing and the input direction: forward
takes `front` with the xor-of-left/right then `back` fallbacks; a left turn
takes `left` only; input opposite to facing yields nothing (unreachable from
`advance`, which turns around first); anything else takes `right` only. -/
def selectSp (back right front left : List SP) (direction input : XY) : Option SP :=
  if dotEx input direction = 1 then
    ((front.head?).orElse fun _ => optXor left.head? right.head?).orElse
      fun _ => back.head?
  else if rightCcw direction = input then
    left.head?
  else if dotEx input direction = -1 then
    none
  else
    right.head?

/-- The selection rule exactly as claim C1 states it, written from the spec's
words: forward = first of `front`, else the first of exactly one non-empty
bucket among `left`/`right`, else first of `back`; left turn = first of
`left` with no fallback; right turn = first of `right` with no fallback. -/
def candidateClaim (back right front left : List SP) (facing input : XY) : Option SP :=
  if input = facing then
    match front.head? with
    | some sp => some sp
    | none =>
      if left ≠ [] ∧ right = [] then left.head?
      else if left = [] ∧ right ≠ [] then right.head?
      else back.head?
  else if input = rightCcw facing then
    left.head?
  else
    right.head?

/-! Bucketing of traversal destinations (`Gadget::targets_from_state_port_brfl`). -/

/-- The `[Vec<SP>; 4]` bucket array built by `targets_from_state_port_brfl`;
the caller destructures it as `[back, right, front, left]`. -/
structure Brfl where
  back : List SP
  right : List SP
  front : List SP
  left : List SP
  deriving Repr, DecidableEq

/-- Array indexing `arr[k]` on the bucket array. -/
def Brfl.bucket (a : Brfl) (k : Nat) : List SP :=
  match k with
  | 0 => a.back
  | 1 => a.right
  | 2 => a.front
  | _ => a.left

/-- Appending to bucket `k` (`arr[k].push(sp)`); only called with `k < 4`. -/
def Brfl.push (a : Brfl) (k : Nat) (sp : SP) : Brfl :=
  match k with
  | 0 => { a with back := a.back ++ [sp] }
  | 1 => { a with right := a.right ++ [sp] }
  | 2 => { a with front := a.front ++ [sp] }
  | _ => { a with left := a.left ++ [sp] }

/-- The offset the source computes from the facing direction
(`gadget.rs` lines 150-162). -/
def offsetOfDir (direction : XY) : Nat :=
  if direction.1 = 0 then (if direction.2 > 0 then 0 else 2)
  else (if direction.1 > 0 then 1 else 3)

/-- The loop body of `targets_from_state_port_brfl`: for each destination,
look its port up in the inverted slot map (`map[&port]` — a panic, modelled
as `none`, when the port has no slot), classify the slot into an edge
category by the source's nested comparisons, and push the destination onto
bucket `(category + offset) % 4`. -/
def brflAux (inv : Nat → Option Nat) (w h off : Nat) :
    List SP → Brfl → Option Brfl
  | [], a => some a
  | sp :: rest, a =>
    match inv sp.2 with
    | none => none
    | some idx =>
      brflAux inv w h off rest
        (a.push
          (if idx < w + h then (if idx < w then (0 + off) % 4 else (1 + off) % 4)
           else (if idx < w + h + w then (2 + off) % 4 else (3 + off) % 4))
          sp)

/-- Traversals allowed in the current state at a port, in back/right/front/
left order relative to a facing direction
(`Gadget::targets_from_state_port_brfl`). -/
def Gadget.targets_from_state_port_brfl (g : Gadget) (port : Nat) (direction : XY) :
    Option Brfl :=
  brflAux g.port_map_inv g.size.1 g.size.2 (offsetOfDir direction)
    (g.gdef.targets_from_state_port (g.state, port)) ⟨[], [], [], []⟩

/-- Absolute edge category of a slot index, as claim C2 states it:
bottom, right, top, left edge of the footprint. -/
def edgeCategory (wh : WH) (slot : Nat) : Nat :=
  if slot < wh.1 then 0
  else if slot < wh.1 + wh.2 then 1
  else if slot < 2 * wh.1 + wh.2 then 2
  else 3

/-- Facing-to-offset table as claim C2 states it: up 0, right 1, down 2,
left 3. -/
def offsetClaim (direction : XY) : Nat :=
  if direction = (0, 1) then 0
  else if direction = (1, 0) then 1
  else if direction = (0, -1) then 2
  else 3

/-! The sparse occupancy grid (`grid.rs`). Its two `FnvHashMap`s are
modelled as function maps. -/

/-- Hash-map insertion on function maps: overwrite at the key. -/
def mapInsert {α β : Type} [DecidableEq α] (m : α → Option β) (k : α) (v : β) :
    α → Option β :=
  fun x => if x = k then some v else m x

/-- Hash-map removal on function maps. -/
def mapRemove {α β : Type} [DecidableEq α] (m : α → Option β) (k : α) :
    α → Option β :=
  fun x => if x = k then none else m x

/-- Sparse grid (`Grid<T>` in `grid.rs`): item records by internal index, a
cell map from coordinates to indexes, and the next fresh index. -/
structure Grid (T : Type) where
  items : Nat → Option (T × XY × WH)
  grid : XY → Option Nat
  next_idx : Nat

/-- Creates an empty grid (`Grid::new`). -/
def Grid.new {T : Type} : Grid T :=
  { items := fun _ => none, grid := fun _ => none, next_idx := 0 }

/-- The footprint cells of an item, enumerated the way the source's nested
`for y ... for x ...` loops run. -/
def footprint (position : XY) (size : WH) : List XY :=
  (List.range size.2).bind fun dy =>
    (List.range size.1).map fun dx => (position.1 + dx, position.2 + dy)

/-- Gets the item covering a position (`Grid::get`). The source indexes
`self.items[...]`, panicking on a dangling index; the invariant proved below
rules that case out, and the model returns `none` there. -/
def Grid.get {T : Type} (g : Grid T) (position : XY) : Option (T × XY × WH) :=
  (g.grid position).bind g.items

/-- Removes the item at a position (`Grid::remove`): if the cell is occupied,
delete the owning record and clear every cell of its footprint. The source
`unwrap`s the record; under the invariant it always exists, and the model
leaves the grid unchanged in that unreachable case. -/
def Grid.remove {T : Type} (g : Grid T) (position : XY) : Grid T :=
  match g.grid position with
  | none => g
  | some idx =>
    match g.items idx with
    | none => g
    | some (_, xy, wh) =>
      { items := mapRemove g.items idx,
        grid := (footprint xy wh).foldl mapRemove g.grid,
        next_idx := g.next_idx }

/-- Inserts an item with a footprint (`Grid::insert`): first `remove` every
cell of the new footprint, then register the record under a fresh index and
point every footprint cell at it. -/
def Grid.insert {T : Type} (g : Grid T) (t : T) (position : XY) (size : WH) :
    Grid T :=
  let g1 := (footprint position size).foldl Grid.remove g
  { items := mapInsert g1.items g1.next_idx (t, position, size),
    grid := (footprint position size).foldl
      (fun m c => mapInsert m c g1.next_idx) g1.grid,
    next_idx := g1.next_idx + 1 }

/-- The grid consistency invariant: footprints are fully covered by their
owning index, every mapped index is live and only covers its own footprint,
and all live indexes are below the fresh counter. -/
def Grid.Inv {T : Type} (g : Grid T) : Prop :=
  (∀ idx r, g.items idx = some r →
    ∀ c ∈ footprint r.2.1 r.2.2, g.grid c = some idx) ∧
  (∀ c idx, g.grid c = some idx →
    ∃ r, g.items idx = some r ∧ c ∈ footprint r.2.1 r.2.2) ∧
  (∀ idx, g.next_idx ≤ idx → g.items idx = none)

/-- One editing step on the grid: an insertion or a removal. -/
inductive GridOp (T : Type) where
  | ins : T → XY → WH → GridOp T
  | rem : XY → GridOp T

/-- Applies one editing step (`Grid::insert` / `Grid::remove`). -/
def applyOp {T : Type} (g : Grid T) : GridOp T → Grid T
  | GridOp.ins t xy wh => g.insert t xy wh
  | GridOp.rem c => g.remove c

/-! Port positions (`Gadget::potential_port_positions` and
`Gadget::port_positions`). Coordinates are `ℚ`, exact for the halves the
source produces. -/

/-- Candidate port positions along the perimeter, bottom edge left-to-right,
right edge upward, top edge right-to-left, left edge downward
(`Gadget::potential_port_positions`). -/
def Gadget.potential_port_positions (g : Gadget) : List (ℚ × ℚ) :=
  ((List.range g.size.1).map fun (i : Nat) => ((1 : ℚ) / 2 + (i : ℚ), (0 : ℚ))) ++
    ((List.range g.size.2).map fun (i : Nat) =>
      ((g.size.1 : ℚ), (1 : ℚ) / 2 + (i : ℚ))) ++
    ((List.range g.size.1).reverse.map fun (i : Nat) =>
      ((1 : ℚ) / 2 + (i : ℚ), (g.size.2 : ℚ))) ++
    ((List.range g.size.2).reverse.map fun (i : Nat) =>
      ((0 : ℚ), (1 : ℚ) / 2 + (i : ℚ)))

/-- The write loop of `Gadget::port_positions`: for each slot paired with its
candidate position, write the position at index `port` of the accumulator.
The source's `vec[*port as usize] = position` panics when the port is out of
range (modelled as `none`). -/
def ppAux : List (Option Nat × (ℚ × ℚ)) → List (ℚ × ℚ) → Option (List (ℚ × ℚ))
  | [], acc => some acc
  | (none, _) :: rest, acc => ppAux rest acc
  | (some p, pos) :: rest, acc =>
    if p < acc.length then ppAux rest (acc.set p pos) else none

/-- Positions of the ports in port order, relative to the bottom-left corner
(`Gadget::port_positions`): a vector of `num_ports` default `(0,0)` entries,
overwritten at each mapped port. -/
def Gadget.port_positions (g : Gadget) : Option (List (ℚ × ℚ)) :=
  ppAux (g.port_map.zip g.potential_port_positions)
    (List.replicate g.gdef.num_ports ((0 : ℚ), (0 : ℚ)))

/-! The agent (`Agent` in `gadget.rs`) and its `advance` step. -/

/-- The agent: doubled position and cardinal facing; the shared render model
is rendering-only and omitted. -/
structure Agent where
  double_xy : XY
  direction : XY
  deriving Repr, DecidableEq

/-- Truncation of an exact rational to an integer (the `as i32` cast applied
to the doubled port position, which is always an exact integer). -/
def ratTrunc (q : ℚ) : Int := q.num.tdiv (q.den : Int)

/-- Modelled from the spec: the perimeter slot of a `w×h` boundary whose
doubled midpoint equals the given doubled coordinate (relative to the
origin), using the same geometry as `potential_port_positions` scaled by two;
part of the missing `get_item_touching_edge` (spec §4.3, §9). -/
def slotOfDoubled (wh : WH) (p : XY) : Option Nat :=
  if p.2 = 0 ∧ p.1 % 2 = 1 ∧ 0 < p.1 ∧ p.1 < 2 * (wh.1 : Int) then
    some ((p.1 / 2).toNat)
  else if p.1 = 2 * (wh.1 : Int) ∧ p.2 % 2 = 1 ∧ 0 < p.2 ∧ p.2 < 2 * (wh.2 : Int) then
    some (wh.1 + (p.2 / 2).toNat)
  else if p.2 = 2 * (wh.2 : Int) ∧ p.1 % 2 = 1 ∧ 0 < p.1 ∧ p.1 < 2 * (wh.1 : Int) then
    some (wh.1 + wh.2 + (wh.1 - 1 - (p.1 / 2).toNat))
  else if p.1 = 0 ∧ p.2 % 2 = 1 ∧ 0 < p.2 ∧ p.2 < 2 * (wh.2 : Int) then
    some (2 * wh.1 + wh.2 + (wh.2 - 1 - (p.2 / 2).toNat))
  else none

/-- Modelled from the spec: `Grid::get_item_touching_edge` (its body is not
among the examined sources; spec §4.3, §8, §9): resolve the cell entered by
a half-step in the facing direction (floor halving of the doubled
coordinate), look the item up there, and find the perimeter slot whose
doubled midpoint coincides with the agent's position; absent item or
non-midpoint position give `none`. The item's internal index is returned as
the handle for the state write-back. -/
def Grid.getItemTouchingEdge (g : Grid Gadget) (dxy : XY) (dir : XY) :
    Option (Nat × Gadget × XY × WH × Nat) :=
  match g.grid ((dxy.1 + dir.1).fdiv 2, (dxy.2 + dir.2).fdiv 2) with
  | none => none
  | some idx =>
    match g.items idx with
    | none => none
    | some (gad, xy, wh) =>
      match slotOfDoubled wh (dxy.1 - 2 * xy.1, dxy.2 - 2 * xy.2) with
      | none => none
      | some slot => some (idx, gad, xy, wh, slot)

/-- One step of the agent (`Agent::advance`, `gadget.rs` lines 537-600);
`none` models a panic inside (possible only on ill-formed gadgets). The grid
is returned alongside the agent, the touched gadget's record updated in
place of the source's mutable borrow. -/
def Agent.advance (a : Agent) (grid : Grid Gadget) (input : XY) :
    Option (Grid Gadget × Agent) :=
  if dotEx input a.direction = -1 then
    some (grid, { a with direction := (-a.direction.1, -a.direction.2) })
  else
    match grid.getItemTouchingEdge a.double_xy a.direction with
    | none => some (grid, a)
    | some (idx, gad, xy, wh, slot) =>
      match gad.port slot with
      | none => none
      | some none => some (grid, a)
      | some (some port) =>
        match gad.targets_from_state_port_brfl port a.direction with
        | none => none
        | some arr =>
          match selectSp arr.back arr.right arr.front arr.left
              a.direction input with
          | none => some (grid, a)
          | some (s1, p1) =>
            match gad.port_positions with
            | none => none
            | some positions =>
              match positions.get? p1 with
              | none => none
              | some pp =>
                some
                  ({ grid with items :=
                      mapInsert grid.items idx ({ gad with state := s1 }, xy, wh) },
                    { a with
                        double_xy :=
                          (xy.1 * 2 + ratTrunc (pp.1 * 2),
                            xy.2 * 2 + ratTrunc (pp.2 * 2)),
                        direction :=
                          if ratTrunc (pp.1 * 2) % 2 ≠ 0 then
                            (if ratTrunc (pp.2 * 2) = 0 then ((0 : Int), (-1 : Int))
                             else (0, 1))
                          else
                            (if ratTrunc (pp.1 * 2) = 0 then ((-1 : Int), (0 : Int))
                             else (1, 0)) })

/-- Well-formedness of a placed gadget, per the spec's data model (§3): the
slot map covers the `2(w+h)` perimeter slots, every mapped port id is in
range, and every traversal destination port has a slot. -/
def WFGadget (gad : Gadget) (wh : WH) : Prop :=
  gad.port_map.length = 2 * (wh.1 + wh.2) ∧
  (∀ p ∈ gad.port_map.filterMap id, p < gad.gdef.num_ports) ∧
  (∀ t ∈ gad.gdef.traversals, (some t.2.2) ∈ gad.port_map)

/-- A grid whose stored gadgets are all well-formed. -/
def Grid.WF (g : Grid Gadget) : Prop :=
  ∀ idx gad xy wh, g.items idx = some (gad, xy, wh) → WFGadget gad wh

/-! Helper lemmas about `rotate_ports`. -/

theorem rotate_ports_eq_rotate (g : Gadget) (n : Int) (h : g.port_map.length ≠ 0) :
    g.rotate_ports n =
      some { g with port_map :=
        g.port_map.rotate (((-n) % (g.port_map.length : Int)).toNat) } := by
  have hpos : (0 : Int) < (g.port_map.length : Int) := by
    exact_mod_cast Nat.pos_of_ne_zero h
  have hlt : (-n) % (g.port_map.length : Int) < (g.port_map.length : Int) :=
    Int.emod_lt_of_pos _ hpos
  have hle : ((-n) % (g.port_map.length : Int)).toNat ≤ g.port_map.length := by
    omega
  rw [Gadget.rotate_ports, if_neg h, List.rotate_eq_drop_append_take hle]

theorem emod_toNat_add_emod_neg_toNat (n : Int) (L : Nat) (hL : L ≠ 0) :
    ((((-n) % (L : Int)).toNat + ((n : Int) % (L : Int)).toNat) % L) = 0 := by
  have hpos : (0 : Int) < (L : Int) := by exact_mod_cast Nat.pos_of_ne_zero hL
  have hne : (L : Int) ≠ 0 := ne_of_gt hpos
  have h1 : 0 ≤ (-n) % (L : Int) := Int.emod_nonneg _ hne
  have h2 : 0 ≤ n % (L : Int) := Int.emod_nonneg _ hne
  have hd : (L : Int) ∣ ((-n) % (L : Int) + n % (L : Int)) := by
    have e1 : (-n) % (L : Int) = -n - (L : Int) * ((-n) / (L : Int)) := Int.emod_def _ _
    have e2 : n % (L : Int) = n - (L : Int) * (n / (L : Int)) := Int.emod_def _ _
    refine ⟨-(((-n) / (L : Int)) + (n / (L : Int))), ?_⟩
    rw [e1, e2]; ring
  have hcast : (((-n) % (L : Int)).toNat + (n % (L : Int)).toNat : Int) =
      (-n) % (L : Int) + n % (L : Int) := by
    push_cast [Int.toNat_of_nonneg h1, Int.toNat_of_nonneg h2]; ring
  have hdvdNat : L ∣ (((-n) % (L : Int)).toNat + (n % (L : Int)).toNat) := by
    have : (L : Int) ∣ ((((-n) % (L : Int)).toNat + (n % (L : Int)).toNat : Nat) : Int) := by
      rw [Nat.cast_add, hcast]; exact hd
    exact_mod_cast this
  obtain ⟨c, hc⟩ := hdvdNat
  rw [hc]; exact Nat.mul_mod_right L c

/-- The claim of C7, amended with a non-empty slot array: rotating by `n`
and then by `-n` restores the gadget exactly. -/
theorem claim7_rotate_ports_inverse (g : Gadget) (n : Int)
    (h : g.port_map ≠ []) :
    (g.rotate_ports n).bind (fun g1 => g1.rotate_ports (-n)) = some g := by
  have hlen : g.port_map.length ≠ 0 := by
    intro hc; exact h (List.length_eq_zero.mp hc)
  rw [rotate_ports_eq_rotate g n hlen, Option.some_bind]
  set r1 : Nat := (((-n)) % (g.port_map.length : Int)).toNat with hr1
  have hlenr : (g.port_map.rotate r1).length = g.port_map.length := List.length_rotate _ _
  have hlen1 : (g.port_map.rotate r1).length ≠ 0 := by rw [hlenr]; exact hlen
  rw [rotate_ports_eq_rotate _ (-n) hlen1]
  have hr2eq : ((-(-n)) % (((g.port_map.rotate r1).length : Nat) : Int)).toNat =
      ((n) % ((g.port_map.length : Nat) : Int)).toNat := by
    rw [hlenr]; norm_num
  set r2 : Nat := ((n) % ((g.port_map.length : Nat) : Int)).toNat with hr2
  have : (g.port_map.rotate r1).rotate
      (((-(-n)) % (((g.port_map.rotate r1).length : Nat) : Int)).toNat) = g.port_map := by
    rw [hr2eq, List.rotate_rotate, ← List.rotate_mod,
      emod_toNat_add_emod_neg_toNat n g.port_map.length hlen, List.rotate_zero]
  simp only [this]

/-- Witness for C7 at a concrete gadget with two slots. -/
theorem claim7_rotate_ports_inverse_witness :
    (Gadget.rotate_ports
        { gdef := GadgetDef.new 1 1, size := (1, 0),
          port_map := [some 0, none], state := 0 } 3).bind
      (fun g1 => g1.rotate_ports (-3)) =
      some { gdef := GadgetDef.new 1 1, size := (1, 0),
             port_map := [some 0, none], state := 0 } :=
  claim7_rotate_ports_inverse
    { gdef := GadgetDef.new 1 1, size := (1, 0),
      port_map := [some 0, none], state := 0 } 3 (by decide)

/-- Counterexample to C7 as frozen: on a gadget whose slot array is empty,
`rotate_ports` hits the `rem_euclid(0)` panic (modelled as `none`), so the
round trip does not restore the gadget. -/
theorem claim7_counterexample_empty_slot_array :
    (Gadget.rotate_ports
        { gdef := GadgetDef.new 1 0, size := (0, 0), port_map := [], state := 0 } 5).bind
      (fun g1 => g1.rotate_ports (-5)) = none := by
  rfl

/-- The claim of C8, amended: `rotate_ports` succeeds exactly on gadgets with
a non-empty slot array (on an empty one the source's `rem_euclid(0)` call
panics), and `flip_ports` always terminates normally, returning a gadget with
the same number of slots. -/
theorem claim8_rotate_flip_totality (g : Gadget) (n : Int) :
    ((g.rotate_ports n).isSome ↔ g.port_map ≠ []) ∧
      (g.flip_ports).port_map.length = g.port_map.length := by
  constructor
  · constructor
    · intro hs hnil
      rw [Gadget.rotate_ports, if_pos (by rw [hnil]; rfl)] at hs
      exact (Bool.false_ne_true hs)
    · intro hne
      have hlen : g.port_map.length ≠ 0 := by
        intro hc; exact hne (List.length_eq_zero.mp hc)
      rw [rotate_ports_eq_rotate g n hlen]; rfl
  · exact List.length_reverse _

/-- Witness for C8 at a concrete two-slot gadget. -/
theorem claim8_rotate_flip_totality_witness :
    ((Gadget.rotate_ports
        { gdef := GadgetDef.new 1 1, size := (0, 1),
          port_map := [none, some 0], state := 0 } 7).isSome ↔
      ([none, some 0] : List (Option Nat)) ≠ []) ∧
    (Gadget.flip_ports
        { gdef := GadgetDef.new 1 1, size := (0, 1),
          port_map := [none, some 0], state := 0 }).port_map.length =
      ([none, some 0] : List (Option Nat)).length :=
  claim8_rotate_flip_totality
    { gdef := GadgetDef.new 1 1, size := (0, 1),
      port_map := [none, some 0], state := 0 } 7

/-- Counterexample to C8 as frozen: the claim asserts totality even for an
empty slot array, but there `rotate_ports` panics (modelled as `none`). -/
theorem claim8_counterexample_empty_slot_array :
    Gadget.rotate_ports
      { gdef := GadgetDef.new 2 0, size := (0, 0), port_map := [], state := 1 } 0 = none := by
  rfl

/-- Claim C9 evaluated against the code: constructing a def with
`num_states = 0` succeeds (both constructors perform no validation), and
`cycle_state` on a gadget using such a def then panics with a division by
zero (modelled as `none`). -/
theorem claim9_zero_states_accepted :
    (GadgetDef.new 0 3).num_states = 0 ∧
      (GadgetDef.from_traversals 0 2 [((0, 0), (1, 1))]).num_states = 0 ∧
      Gadget.cycle_state
        { gdef := GadgetDef.new 0 3, size := (1, 1),
          port_map := [some 0, none, none, none], state := 0 } = none := by
  exact ⟨rfl, rfl, rfl⟩

/-! Iteration order of the traversal store (claim C4). -/

theorem mem_foldl_insertTraversal (l : List SPSP) (s : List SPSP) (t : SPSP) :
    t ∈ l.foldl insertTraversal s ↔ t ∈ s ∨ t ∈ l := by
  induction l generalizing s with
  | nil => simp
  | cons a l ih =>
    rw [List.foldl_cons, ih]
    unfold insertTraversal
    by_cases ha : a ∈ s
    · rw [if_pos ha]
      constructor
      · rintro (hs | hl)
        · exact Or.inl hs
        · exact Or.inr (List.mem_cons_of_mem a hl)
      · rintro (hs | hal)
        · exact Or.inl hs
        · rcases List.mem_cons.mp hal with rfl | hl
          · exact Or.inl ha
          · exact Or.inr hl
    · rw [if_neg ha]
      constructor
      · rintro (hs | hl)
        · rcases List.mem_append.mp hs with hs | hsa
          · exact Or.inl hs
          · exact Or.inr (List.mem_cons.mpr (Or.inl (List.mem_singleton.mp hsa)))
        · exact Or.inr (List.mem_cons_of_mem a hl)
      · rintro (hs | hal)
        · exact Or.inl (List.mem_append.mpr (Or.inl hs))
        · rcases List.mem_cons.mp hal with rfl | hl
          · exact Or.inl (List.mem_append.mpr (Or.inr (List.mem_singleton.mpr rfl)))
          · exact Or.inr hl

/-- The claim of C4, amended: the destination sequence is a deterministic
function of the def's stored traversal sequence (its construction order), and
its members are exactly the destinations the construction list pairs with the
given source — but it is not a canonical order: two defs built from the same
traversal set in different insertion orders may disagree (see the
counterexample). -/
theorem claim4_targets_deterministic_in_stored_order :
    (∀ (d1 d2 : GadgetDef) (sp : SP), d1.traversals = d2.traversals →
      d1.targets_from_state_port sp = d2.targets_from_state_port sp) ∧
    (∀ (n m : Nat) (l : List SPSP) (sp x : SP),
      x ∈ (GadgetDef.from_traversals n m l).targets_from_state_port sp ↔ (sp, x) ∈ l) := by
  constructor
  · intro d1 d2 sp h
    unfold GadgetDef.targets_from_state_port
    rw [h]
  · intro n m l sp x
    unfold GadgetDef.targets_from_state_port GadgetDef.from_traversals
    simp only [List.mem_map, List.mem_filter, beq_iff_eq]
    constructor
    · rintro ⟨t, ⟨hmem, h1⟩, h2⟩
      have : t = (sp, x) := by
        cases t; cases h1; cases h2; rfl
      rw [this] at hmem
      exact ((mem_foldl_insertTraversal l [] (sp, x)).mp hmem).resolve_left
        (by intro hc; cases hc)
    · intro hmem
      exact ⟨(sp, x), ⟨(mem_foldl_insertTraversal l [] (sp, x)).mpr (Or.inr hmem), rfl⟩, rfl⟩

/-- Witness for C4 at concrete defs: equal stored sequences give equal
destination sequences, and membership matches the construction list. -/
theorem claim4_targets_deterministic_in_stored_order_witness :
    (GadgetDef.from_traversals 2 2
        [((0, 0), (1, 1))]).targets_from_state_port (0, 0) =
      (GadgetDef.from_traversals 2 2
        [((0, 0), (1, 1))]).targets_from_state_port (0, 0) ∧
    ((1, 1) ∈ (GadgetDef.from_traversals 2 2
        [((0, 0), (1, 1))]).targets_from_state_port (0, 0) ↔
      (((0, 0) : SP), ((1, 1) : SP)) ∈ [(((0, 0) : SP), ((1, 1) : SP))]) :=
  ⟨claim4_targets_deterministic_in_stored_order.1
      (GadgetDef.from_traversals 2 2 [((0, 0), (1, 1))])
      (GadgetDef.from_traversals 2 2 [((0, 0), (1, 1))]) (0, 0) rfl,
    claim4_targets_deterministic_in_stored_order.2 2 2
      [((0, 0), (1, 1))] (0, 0) (1, 1)⟩

/-- Counterexample to C4 as frozen: two defs built from the same traversal
set (same members, checked by a permutation) in different insertion orders
produce differently ordered destination sequences, so the order is not a
fixed function of the set. -/
theorem claim4_counterexample_insertion_order :
    List.Perm
      (GadgetDef.from_traversals 2 2 [((0, 0), (1, 1)), ((0, 0), (0, 0))]).traversals
      (GadgetDef.from_traversals 2 2 [((0, 0), (0, 0)), ((0, 0), (1, 1))]).traversals ∧
    (GadgetDef.from_traversals 2 2
        [((0, 0), (1, 1)), ((0, 0), (0, 0))]).targets_from_state_port (0, 0) ≠
      (GadgetDef.from_traversals 2 2
        [((0, 0), (0, 0)), ((0, 0), (1, 1))]).targets_from_state_port (0, 0) := by
  constructor
  · decide
  · decide

theorem selectSp_forward_eq (back right front left : List SP) :
    ((front.head?).orElse fun _ => optXor left.head? right.head?).orElse
        (fun _ => back.head?) =
      (match front.head? with
       | some sp => some sp
       | none =>
         if left ≠ [] ∧ right = [] then left.head?
         else if left = [] ∧ right ≠ [] then right.head?
         else back.head?) := by
  cases front with
  | cons f fs => rfl
  | nil =>
    cases left with
    | cons l ls =>
      cases right with
      | cons r rs => simp [optXor, Option.orElse]
      | nil => simp [optXor, Option.orElse]
    | nil =>
      cases right with
      | cons r rs => simp [optXor, Option.orElse]
      | nil => simp [optXor, Option.orElse]

/-- Claim C1: for cardinal facing and input directions (the input opposite
to the facing being handled before the selection is reached), the candidate
`Agent::advance` picks from the back/right/front/left buckets is exactly the
rule the claim states. -/
theorem claim1_advance_selection_rule
    (back right front left : List SP) (direction input : XY)
    (hdir : isCardinal direction) (hin : isCardinal input)
    (hne : input ≠ (-direction.1, -direction.2)) :
    selectSp back right front left direction input =
      candidateClaim back right front left direction input := by
  rcases hdir with rfl | rfl | rfl | rfl <;>
    rcases hin with rfl | rfl | rfl | rfl <;>
      first
      | (exact absurd rfl hne)
      | (unfold selectSp candidateClaim
         norm_num [dotEx, rightCcw]
         try exact selectSp_forward_eq back right front left)

/-- Witness for C1 at concrete buckets and directions (forward input, facing
up, only the left bucket populated). -/
theorem claim1_advance_selection_rule_witness :
    selectSp [] [] [] [(4, 2)] (0, 1) (0, 1) =
      candidateClaim [] [] [] [(4, 2)] (0, 1) (0, 1) :=
  claim1_advance_selection_rule [] [] [] [(4, 2)] (0, 1) (0, 1)
    (by decide) (by decide) (by decide)

theorem Brfl.push_bucket (a : Brfl) (k : Nat) (sp : SP) (j : Nat)
    (hk : k < 4) (hj : j < 4) :
    (a.push k sp).bucket j = if j = k then a.bucket j ++ [sp] else a.bucket j := by
  interval_cases k <;> interval_cases j <;> simp [Brfl.push, Brfl.bucket]

theorem offsetOfDir_eq_offsetClaim (direction : XY) (hdir : isCardinal direction) :
    offsetOfDir direction = offsetClaim direction := by
  rcases hdir with rfl | rfl | rfl | rfl <;> decide

theorem brflAux_characterization (inv : Nat → Option Nat) (w h off : Nat)
    (slot : SP → Nat) (l : List SP) :
    ∀ a : Brfl, (∀ sp ∈ l, inv sp.2 = some (slot sp)) →
      ∃ arr, brflAux inv w h off l a = some arr ∧
        ∀ k, k < 4 → arr.bucket k =
          a.bucket k ++
            l.filter (fun sp => (edgeCategory (w, h) (slot sp) + off) % 4 == k) := by
  induction l with
  | nil =>
    intro a _
    exact ⟨a, rfl, fun k _ => by simp⟩
  | cons sp rest ih =>
    intro a hinv
    have hs : inv sp.2 = some (slot sp) := hinv sp (List.mem_cons_self _ _)
    have hrest : ∀ x ∈ rest, inv x.2 = some (slot x) :=
      fun x hx => hinv x (List.mem_cons_of_mem _ hx)
    have hkc :
        (if slot sp < w + h then
            (if slot sp < w then (0 + off) % 4 else (1 + off) % 4)
         else (if slot sp < w + h + w then (2 + off) % 4 else (3 + off) % 4)) =
          (edgeCategory (w, h) (slot sp) + off) % 4 := by
      simp only [edgeCategory]
      split_ifs <;> omega
    obtain ⟨arr, ha, hb⟩ :=
      ih (a.push ((edgeCategory (w, h) (slot sp) + off) % 4) sp) hrest
    refine ⟨arr, ?_, ?_⟩
    · simp only [brflAux, hs, hkc]
      exact ha
    · intro k hk
      rw [hb k hk,
        Brfl.push_bucket a _ sp k (Nat.mod_lt _ (by norm_num)) hk]
      by_cases hks : k = (edgeCategory (w, h) (slot sp) + off) % 4
      · rw [if_pos hks, List.filter_cons_of_pos (by simp [hks]), List.append_assoc]
        rfl
      · rw [if_neg hks, List.filter_cons_of_neg (by simp; omega)]

/-- Claim C2: with a cardinal facing direction, and every destination port of
the current (state, port) having a slot (given by the assignment `slot`),
`targets_from_state_port_brfl` succeeds and bucket `k` holds exactly the
destinations whose `(edge_category + offset) % 4` equals `k`, in traversal
order, with offset up 0 / right 1 / down 2 / left 3 and edge category by
slot-index thresholds `w`, `w+h`, `2w+h`; bucket 0 is back, 1 right, 2 front,
3 left relative to the facing. -/
theorem claim2_brfl_bucketing (g : Gadget) (port : Nat) (direction : XY)
    (slot : SP → Nat) (hdir : isCardinal direction)
    (hinv : ∀ sp ∈ g.gdef.targets_from_state_port (g.state, port),
      g.port_map_inv sp.2 = some (slot sp)) :
    ∃ arr, g.targets_from_state_port_brfl port direction = some arr ∧
      (∀ k, k < 4 → arr.bucket k =
        (g.gdef.targets_from_state_port (g.state, port)).filter
          (fun sp => (edgeCategory g.size (slot sp) + offsetClaim direction) % 4 == k)) ∧
      arr.bucket 0 = arr.back ∧ arr.bucket 1 = arr.right ∧
      arr.bucket 2 = arr.front ∧ arr.bucket 3 = arr.left := by
  obtain ⟨arr, ha, hb⟩ :=
    brflAux_characterization g.port_map_inv g.size.1 g.size.2
      (offsetOfDir direction) slot
      (g.gdef.targets_from_state_port (g.state, port)) ⟨[], [], [], []⟩ hinv
  refine ⟨arr, ha, fun k hk => ?_, rfl, rfl, rfl, rfl⟩
  rw [hb k hk, offsetOfDir_eq_offsetClaim direction hdir]
  have hempty : (⟨[], [], [], []⟩ : Brfl).bucket k = [] := by
    rcases k with _ | _ | _ | k <;> rfl
  rw [hempty, List.nil_append]

/-- Witness for C2: a 1×1 one-port self-loop gadget, facing up. -/
theorem claim2_brfl_bucketing_witness :
    ∃ arr,
      Gadget.targets_from_state_port_brfl
        { gdef := GadgetDef.from_traversals 1 1 [((0, 0), (0, 0))], size := (1, 1),
          port_map := [some 0, none, none, none], state := 0 } 0 (0, 1) = some arr ∧
      (∀ k, k < 4 →
        arr.bucket k =
          (({ gdef := GadgetDef.from_traversals 1 1 [((0, 0), (0, 0))], size := (1, 1),
              port_map := [some 0, none, none, none], state := 0 } :
            Gadget).gdef.targets_from_state_port (0, 0)).filter
            (fun _ => (edgeCategory (1, 1) 0 + offsetClaim (0, 1)) % 4 == k)) ∧
      arr.bucket 0 = arr.back ∧ arr.bucket 1 = arr.right ∧
      arr.bucket 2 = arr.front ∧ arr.bucket 3 = arr.left :=
  claim2_brfl_bucketing
    { gdef := GadgetDef.from_traversals 1 1 [((0, 0), (0, 0))], size := (1, 1),
      port_map := [some 0, none, none, none], state := 0 } 0 (0, 1)
    (fun _ => 0) (by decide) (by decide)

theorem foldl_mapRemove_lookup {α β : Type} [DecidableEq α] (l : List α)
    (m : α → Option β) (x : α) :
    l.foldl mapRemove m x = if x ∈ l then none else m x := by
  induction l generalizing m with
  | nil => simp
  | cons a l ih =>
    rw [List.foldl_cons, ih]
    by_cases hx : x = a
    · subst hx; simp [mapRemove]
    · by_cases hl : x ∈ l <;> simp [mapRemove, hx, hl, List.mem_cons]

theorem foldl_mapInsert_lookup {α β : Type} [DecidableEq α] (l : List α)
    (m : α → Option β) (v : β) (x : α) :
    l.foldl (fun mm c => mapInsert mm c v) m x = if x ∈ l then some v else m x := by
  induction l generalizing m with
  | nil => simp
  | cons a l ih =>
    rw [List.foldl_cons, ih]
    by_cases hx : x = a
    · subst hx; by_cases hl : x ∈ l <;> simp [mapInsert, hl]
    · by_cases hl : x ∈ l <;> simp [mapInsert, hx, hl, List.mem_cons]

theorem foldl_mapRemove_mem {α β : Type} [DecidableEq α] {l : List α}
    (m : α → Option β) {x : α} (hx : x ∈ l) : l.foldl mapRemove m x = none := by
  rw [foldl_mapRemove_lookup, if_pos hx]

theorem foldl_mapRemove_not_mem {α β : Type} [DecidableEq α] {l : List α}
    (m : α → Option β) {x : α} (hx : x ∉ l) : l.foldl mapRemove m x = m x := by
  rw [foldl_mapRemove_lookup, if_neg hx]

theorem foldl_mapInsert_mem {α β : Type} [DecidableEq α] {l : List α}
    (m : α → Option β) (v : β) {x : α} (hx : x ∈ l) :
    l.foldl (fun mm c => mapInsert mm c v) m x = some v := by
  rw [foldl_mapInsert_lookup, if_pos hx]

theorem foldl_mapInsert_not_mem {α β : Type} [DecidableEq α] {l : List α}
    (m : α → Option β) (v : β) {x : α} (hx : x ∉ l) :
    l.foldl (fun mm c => mapInsert mm c v) m x = m x := by
  rw [foldl_mapInsert_lookup, if_neg hx]

theorem Grid.inv_new {T : Type} : (Grid.new (T := T)).Inv := by
  refine ⟨?_, ?_, ?_⟩
  · intro idx r h c hc
    cases h
  · intro c idx h
    cases h
  · intro idx h
    rfl

theorem Grid.remove_next_idx {T : Type} (g : Grid T) (pos : XY) :
    (g.remove pos).next_idx = g.next_idx := by
  rcases hg : g.grid pos with _ | idx
  · simp only [Grid.remove, hg]
  · rcases hi : g.items idx with _ | ⟨t0, xy0, wh0⟩
    · simp only [Grid.remove, hg, hi]
    · simp only [Grid.remove, hg, hi]

theorem Grid.remove_items_subset {T : Type} (g : Grid T) (pos : XY) (i : Nat)
    (r : T × XY × WH) (h : (g.remove pos).items i = some r) : g.items i = some r := by
  rcases hg : g.grid pos with _ | idx
  · simpa only [Grid.remove, hg] using h
  · rcases hi : g.items idx with _ | ⟨t0, xy0, wh0⟩
    · simpa only [Grid.remove, hg, hi] using h
    · simp only [Grid.remove, hg, hi, mapRemove] at h
      split at h
      · cases h
      · exact h

theorem Grid.remove_grid_none {T : Type} (g : Grid T) (pos : XY) (c : XY)
    (h : g.grid c = none) : (g.remove pos).grid c = none := by
  rcases hg : g.grid pos with _ | idx
  · simpa only [Grid.remove, hg] using h
  · rcases hi : g.items idx with _ | ⟨t0, xy0, wh0⟩
    · simpa only [Grid.remove, hg, hi] using h
    · simp only [Grid.remove, hg, hi]
      by_cases hcm : c ∈ footprint xy0 wh0
      · exact foldl_mapRemove_mem g.grid hcm
      · rw [foldl_mapRemove_not_mem g.grid hcm]
        exact h

theorem Grid.inv_remove {T : Type} (g : Grid T) (pos : XY) (h : g.Inv) :
    (g.remove pos).Inv := by
  obtain ⟨h1, h2, h3⟩ := h
  rcases hg : g.grid pos with _ | idx
  · simp only [Grid.remove, hg]
    exact ⟨h1, h2, h3⟩
  · rcases hi : g.items idx with _ | ⟨t0, xy0, wh0⟩
    · simp only [Grid.remove, hg, hi]
      exact ⟨h1, h2, h3⟩
    · simp only [Grid.remove, hg, hi]
      refine ⟨?_, ?_, ?_⟩
      · intro j r hj c hc
        simp only [mapRemove] at hj
        by_cases hji : j = idx
        · rw [if_pos hji] at hj
          cases hj
        · rw [if_neg hji] at hj
          by_cases hcm : c ∈ footprint xy0 wh0
          · have hcov0 : g.grid c = some idx := h1 idx (t0, xy0, wh0) hi c hcm
            have hcovj : g.grid c = some j := h1 j r hj c hc
            rw [hcov0] at hcovj
            exact absurd (Option.some.inj hcovj).symm hji
          · show (footprint xy0 wh0).foldl mapRemove g.grid c = some j
            rw [foldl_mapRemove_not_mem g.grid hcm]
            exact h1 j r hj c hc
      · intro c j hcj
        have hcj2 : (footprint xy0 wh0).foldl mapRemove g.grid c = some j := hcj
        by_cases hcm : c ∈ footprint xy0 wh0
        · rw [foldl_mapRemove_mem g.grid hcm] at hcj2
          cases hcj2
        · rw [foldl_mapRemove_not_mem g.grid hcm] at hcj2
          obtain ⟨r, hit, hmem⟩ := h2 c j hcj2
          have hji : j ≠ idx := by
            intro hje
            subst hje
            rw [hi] at hit
            cases Option.some.inj hit
            exact hcm hmem
          refine ⟨r, ?_, hmem⟩
          simp only [mapRemove, if_neg hji]
          exact hit
      · intro j hj
        simp only [mapRemove]
        split
        · rfl
        · exact h3 j hj

theorem Grid.remove_self_grid_none {T : Type} (g : Grid T) (pos : XY) (h : g.Inv) :
    (g.remove pos).grid pos = none := by
  obtain ⟨h1, h2, h3⟩ := h
  rcases hg : g.grid pos with _ | idx
  · simp only [Grid.remove, hg]
  · obtain ⟨r, hit, hmem⟩ := h2 pos idx hg
    rcases r with ⟨t0, xy0, wh0⟩
    simp only [Grid.remove, hg, hit]
    exact foldl_mapRemove_mem g.grid hmem

theorem Grid.foldl_remove_grid_none {T : Type} (l : List XY) :
    ∀ (g : Grid T) (c : XY), g.grid c = none →
      (l.foldl Grid.remove g).grid c = none := by
  induction l with
  | nil => exact fun g c h => h
  | cons a l ih =>
    intro g c h
    rw [List.foldl_cons]
    exact ih (g.remove a) c (g.remove_grid_none a c h)

/-- Combined facts about the removal pass of `Grid::insert`. -/
theorem Grid.foldl_remove_spec {T : Type} (l : List XY) :
    ∀ g : Grid T, g.Inv →
      (l.foldl Grid.remove g).Inv ∧
      (l.foldl Grid.remove g).next_idx = g.next_idx ∧
      (∀ i r, (l.foldl Grid.remove g).items i = some r → g.items i = some r) ∧
      (∀ c ∈ l, (l.foldl Grid.remove g).grid c = none) := by
  induction l with
  | nil =>
    intro g hg
    exact ⟨hg, rfl, fun i r h => h, fun c hc => absurd hc (List.not_mem_nil c)⟩
  | cons a l ih =>
    intro g hg
    obtain ⟨ih1, ih2, ih3, ih4⟩ := ih (g.remove a) (g.inv_remove a hg)
    rw [List.foldl_cons]
    refine ⟨ih1, ih2.trans (g.remove_next_idx a), ?_, ?_⟩
    · intro i r hi
      exact g.remove_items_subset a i r (ih3 i r hi)
    · intro c hc
      rcases List.mem_cons.mp hc with rfl | hc
      · exact Grid.foldl_remove_grid_none l (g.remove c) c
          (g.remove_self_grid_none c hg)
      · exact ih4 c hc

/-- Combined facts about `Grid::insert` under the invariant: the invariant
is preserved, the fresh index is new and registered over the full footprint,
and every previously colliding record is evicted whole. -/
theorem Grid.insert_spec {T : Type} (g : Grid T) (t : T) (position : XY)
    (size : WH) (h : g.Inv) :
    (g.insert t position size).Inv ∧
    (g.insert t position size).next_idx = g.next_idx + 1 ∧
    g.items g.next_idx = none ∧
    (g.insert t position size).items g.next_idx = some (t, position, size) ∧
    (∀ c ∈ footprint position size,
      (g.insert t position size).grid c = some g.next_idx) ∧
    (∀ oldIdx, (∃ c ∈ footprint position size, g.grid c = some oldIdx) →
      (g.insert t position size).items oldIdx = none ∧
      ∀ c, (g.insert t position size).grid c ≠ some oldIdx) := by
  obtain ⟨g1inv, g1next, g1sub, g1cells⟩ :=
    Grid.foldl_remove_spec (footprint position size) g h
  have hitems : (g.insert t position size).items =
      mapInsert ((footprint position size).foldl Grid.remove g).items
        ((footprint position size).foldl Grid.remove g).next_idx
        (t, position, size) := rfl
  have hgridMem : ∀ c, c ∈ footprint position size →
      (g.insert t position size).grid c =
        some ((footprint position size).foldl Grid.remove g).next_idx :=
    fun c hc => foldl_mapInsert_mem _ _ hc
  have hgridNot : ∀ c, c ∉ footprint position size →
      (g.insert t position size).grid c =
        ((footprint position size).foldl Grid.remove g).grid c :=
    fun c hc => foldl_mapInsert_not_mem _ _ hc
  have hnext : (g.insert t position size).next_idx =
      ((footprint position size).foldl Grid.remove g).next_idx + 1 := rfl
  set g1 : Grid T := (footprint position size).foldl Grid.remove g with hg1
  obtain ⟨g11, g12, g13⟩ := g1inv
  refine ⟨⟨?_, ?_, ?_⟩, ?_, ?_, ?_, ?_, ?_⟩
  · -- coverage
    intro j r hj c hc
    rw [hitems] at hj
    simp only [mapInsert] at hj
    by_cases hje : j = g1.next_idx
    · rw [if_pos hje] at hj
      cases Option.some.inj hj
      rw [hgridMem c hc, hje]
    · rw [if_neg hje] at hj
      have hcov := g11 j r hj c hc
      by_cases hcm : c ∈ footprint position size
      · rw [g1cells c hcm] at hcov
        cases hcov
      · rw [hgridNot c hcm]
        exact hcov
  · -- mapped indexes are live, over their own footprint
    intro c j hcj
    by_cases hcm : c ∈ footprint position size
    · rw [hgridMem c hcm] at hcj
      cases Option.some.inj hcj
      refine ⟨(t, position, size), ?_, hcm⟩
      rw [hitems]
      simp [mapInsert]
    · rw [hgridNot c hcm] at hcj
      obtain ⟨r, hit, hmem⟩ := g12 c j hcj
      refine ⟨r, ?_, hmem⟩
      rw [hitems]
      simp only [mapInsert]
      rw [if_neg ?_]
      · exact hit
      · intro hje
        rw [hje, g13 g1.next_idx (le_refl _)] at hit
        exact Option.noConfusion hit
  · -- freshness
    intro j hj
    rw [hnext] at hj
    rw [hitems]
    simp only [mapInsert]
    rw [if_neg (by omega)]
    exact g13 j (by omega)
  · rw [hnext, g1next]
  · exact h.2.2 g.next_idx (le_refl _)
  · rw [hitems, ← g1next]
    simp [mapInsert]
  · intro c hc
    rw [hgridMem c hc, g1next]
  · rintro oldIdx ⟨c, hc, hcg⟩
    obtain ⟨r0, hit0, hmem0⟩ := h.2.1 c oldIdx hcg
    have holdlt : oldIdx < g.next_idx := by
      by_contra hlt
      rw [h.2.2 oldIdx (Nat.le_of_not_lt hlt)] at hit0
      cases hit0
    have hg1old : g1.items oldIdx = none := by
      rcases hold : g1.items oldIdx with _ | r1
      · rfl
      · have hrg := g1sub oldIdx r1 hold
        rw [hit0] at hrg
        cases Option.some.inj hrg
        have hcov := g11 oldIdx r0 hold c hmem0
        rw [g1cells c hc] at hcov
        exact Option.noConfusion hcov
    constructor
    · rw [hitems]
      simp only [mapInsert]
      rw [if_neg (by rw [g1next]; omega)]
      exact hg1old
    · intro c2
      by_cases hcm : c2 ∈ footprint position size
      · rw [hgridMem c2 hcm]
        intro hcon
        have hh := Option.some.inj hcon
        rw [g1next] at hh
        omega
      · rw [hgridNot c2 hcm]
        intro hcon
        obtain ⟨r2, hit2, _⟩ := g12 c2 oldIdx hcon
        rw [hg1old] at hit2
        exact Option.noConfusion hit2

/-- Claim C5: `Grid::insert` registers a fresh index over the whole new
footprint, and every record that occupied any cell of that footprint is
removed entirely — its record is gone and no cell anywhere still maps to it. -/
theorem claim5_insert_whole_item_eviction {T : Type} (g : Grid T) (t : T)
    (position : XY) (size : WH) (h : g.Inv) :
    (∀ c ∈ footprint position size,
      (g.insert t position size).grid c = some g.next_idx) ∧
    g.items g.next_idx = none ∧
    (g.insert t position size).items g.next_idx = some (t, position, size) ∧
    (∀ oldIdx, (∃ c ∈ footprint position size, g.grid c = some oldIdx) →
      (g.insert t position size).items oldIdx = none ∧
      ∀ c, (g.insert t position size).grid c ≠ some oldIdx) := by
  obtain ⟨_, _, h3, h4, h5, h6⟩ := Grid.insert_spec g t position size h
  exact ⟨h5, h3, h4, h6⟩

/-- Witness for C5: the spec's concrete eviction scenario — payload `1`
("a") at origin (0,0) size (2,2), then payload `2` ("b") at (1,1) size
(2,2); afterwards `get (0,0)` is absent. -/
theorem claim5_insert_whole_item_eviction_witness :
    ((Grid.new.insert 1 (0, 0) (2, 2)).Inv ∧
      (∀ c ∈ footprint (1, 1) (2, 2),
        ((Grid.new.insert 1 (0, 0) (2, 2)).insert 2 (1, 1) (2, 2)).grid c =
          some (Grid.new.insert 1 (0, 0) (2, 2)).next_idx) ∧
      (Grid.new.insert 1 (0, 0) (2, 2)).items
        (Grid.new.insert 1 (0, 0) (2, 2)).next_idx = none ∧
      ((Grid.new.insert 1 (0, 0) (2, 2)).insert 2 (1, 1) (2, 2)).items
        (Grid.new.insert 1 (0, 0) (2, 2)).next_idx = some (2, (1, 1), (2, 2)) ∧
      (∀ oldIdx,
        (∃ c ∈ footprint (1, 1) (2, 2),
          (Grid.new.insert 1 (0, 0) (2, 2)).grid c = some oldIdx) →
        ((Grid.new.insert 1 (0, 0) (2, 2)).insert 2 (1, 1) (2, 2)).items oldIdx =
          none ∧
        ∀ c, ((Grid.new.insert 1 (0, 0) (2, 2)).insert 2 (1, 1) (2, 2)).grid c ≠
          some oldIdx)) ∧
    ((Grid.new.insert 1 (0, 0) (2, 2)).insert 2 (1, 1) (2, 2)).get (0, 0) = none := by
  have hinv : (Grid.new.insert 1 (0, 0) (2, 2)).Inv :=
    (Grid.insert_spec Grid.new 1 (0, 0) (2, 2) Grid.inv_new).1
  exact ⟨⟨hinv, claim5_insert_whole_item_eviction
    (Grid.new.insert 1 (0, 0) (2, 2)) 2 (1, 1) (2, 2) hinv⟩, by rfl⟩

theorem inv_foldl_applyOp {T : Type} (ops : List (GridOp T)) :
    ∀ g : Grid T, g.Inv → (ops.foldl applyOp g).Inv := by
  induction ops with
  | nil => exact fun g hg => hg
  | cons op ops ih =>
    intro g hg
    rw [List.foldl_cons]
    rcases op with ⟨t, xy, wh⟩ | c
    · exact ih _ (Grid.insert_spec g t xy wh hg).1
    · exact ih _ (g.inv_remove c hg)

/-- Claim C6: after any sequence of inserts and removes from the empty grid,
every cell of a stored record's footprint maps to that record's index, no
cell maps to two indexes, and every index a cell maps to is live in the item
map. -/
theorem claim6_grid_invariant_all_sequences {T : Type} (ops : List (GridOp T)) :
    (∀ idx t xy wh,
      (ops.foldl applyOp Grid.new).items idx = some (t, xy, wh) →
      ∀ c ∈ footprint xy wh, (ops.foldl applyOp Grid.new).grid c = some idx) ∧
    (∀ c i j, (ops.foldl applyOp Grid.new).grid c = some i →
      (ops.foldl applyOp Grid.new).grid c = some j → i = j) ∧
    (∀ c idx, (ops.foldl applyOp Grid.new).grid c = some idx →
      ((ops.foldl applyOp Grid.new).items idx).isSome) := by
  obtain ⟨h1, h2, _⟩ := inv_foldl_applyOp ops Grid.new Grid.inv_new
  refine ⟨?_, ?_, ?_⟩
  · intro idx t xy wh hit c hc
    exact h1 idx (t, xy, wh) hit c hc
  · intro c i j hi hj
    rw [hi] at hj
    exact Option.some.inj hj
  · intro c idx hc
    obtain ⟨r, hit, _⟩ := h2 c idx hc
    rw [hit]
    rfl

theorem potential_port_positions_length (g : Gadget) :
    g.potential_port_positions.length = 2 * (g.size.1 + g.size.2) := by
  simp only [Gadget.potential_port_positions, List.length_append,
    List.length_map, List.length_reverse, List.length_range]
  omega

theorem ppAux_some_length (L : List (Option Nat × (ℚ × ℚ))) :
    ∀ acc, (∀ q pos, (some q, pos) ∈ L → q < acc.length) →
      ∃ r, ppAux L acc = some r ∧ r.length = acc.length := by
  induction L with
  | nil => exact fun acc _ => ⟨acc, rfl, rfl⟩
  | cons hd rest ih =>
    intro acc hq
    rcases hd with ⟨o, pos⟩
    rcases o with _ | p
    · obtain ⟨r, hr, hl⟩ :=
        ih acc (fun q pos2 hmem => hq q pos2 (List.mem_cons_of_mem _ hmem))
      exact ⟨r, by simp only [ppAux]; exact hr, hl⟩
    · have hp : p < acc.length := hq p pos (List.mem_cons_self _ _)
      obtain ⟨r, hr, hl⟩ :=
        ih (acc.set p pos) (fun q pos2 hmem => by
          rw [List.length_set]
          exact hq q pos2 (List.mem_cons_of_mem _ hmem))
      refine ⟨r, ?_, by rw [hl, List.length_set]⟩
      simp only [ppAux, if_pos hp]
      exact hr

theorem ppAux_not_written (L : List (Option Nat × (ℚ × ℚ))) :
    ∀ acc r (p : Nat), ppAux L acc = some r → (∀ pos, (some p, pos) ∉ L) →
      r.get? p = acc.get? p := by
  induction L with
  | nil =>
    intro acc r p h _
    cases h
    rfl
  | cons hd rest ih =>
    intro acc r p h hnot
    rcases hd with ⟨o, pos⟩
    rcases o with _ | q
    · simp only [ppAux] at h
      exact ih acc r p h (fun pos2 hmem => hnot pos2 (List.mem_cons_of_mem _ hmem))
    · simp only [ppAux] at h
      split at h
      · have hqp : q ≠ p := by
          intro he
          subst he
          exact hnot pos (List.mem_cons_self _ _)
        rw [ih (acc.set q pos) r p h
          (fun pos2 hmem => hnot pos2 (List.mem_cons_of_mem _ hmem))]
        exact List.get?_set_ne pos acc hqp
      · cases h

theorem get?_set_self_of_lt {α : Type} (l : List α) (i : Nat) (a : α)
    (h : i < l.length) : (l.set i a).get? i = some a := by
  rw [List.get?_set_eq]
  rcases hx : l.get? i with _ | x
  · rw [List.get?_eq_none] at hx
    omega
  · rfl

theorem ppAux_written (L : List (Option Nat × (ℚ × ℚ))) :
    ∀ acc r (p : Nat) (pos : ℚ × ℚ), ppAux L acc = some r →
      (some p, pos) ∈ L → (∀ pos2, (some p, pos2) ∈ L → pos2 = pos) →
      p < acc.length → r.get? p = some pos := by
  induction L with
  | nil =>
    intro acc r p pos _ hmem _ _
    cases hmem
  | cons hd rest ih =>
    intro acc r p pos h hmem huniq hp
    rcases hd with ⟨o, posh⟩
    rcases o with _ | q
    · simp only [ppAux] at h
      rcases List.mem_cons.mp hmem with heq | hmem2
      · simp at heq
      · exact ih acc r p pos h hmem2
          (fun pos2 hm2 => huniq pos2 (List.mem_cons_of_mem _ hm2)) hp
    · simp only [ppAux] at h
      split at h
      · rename_i hq
        by_cases hqp : q = p
        · subst hqp
          by_cases hrest : ∃ pos2, (some q, pos2) ∈ rest
          · obtain ⟨pos2, hm2⟩ := hrest
            have he2 : pos2 = pos := huniq pos2 (List.mem_cons_of_mem _ hm2)
            subst he2
            exact ih _ r q pos2 h hm2
              (fun pos3 hm3 => huniq pos3 (List.mem_cons_of_mem _ hm3))
              (by rw [List.length_set]; exact hp)
          · have heq : posh = pos := huniq posh (List.mem_cons_self _ _)
            subst heq
            rw [ppAux_not_written rest _ r q h
              (fun pos2 hmem2 => hrest ⟨pos2, hmem2⟩)]
            exact get?_set_self_of_lt acc q posh hp
        · rcases List.mem_cons.mp hmem with heq | hmem2
          · rw [Prod.mk.injEq] at heq
            exact absurd (Option.some.inj heq.1).symm hqp
          · exact ih _ r p pos h hmem2
              (fun pos2 hm2 => huniq pos2 (List.mem_cons_of_mem _ hm2))
              (by rw [List.length_set]; exact hp)
      · cases h

theorem nodup_filterMap_get?_unique (pm : List (Option Nat)) :
    ∀ (p i j : Nat), (pm.filterMap id).Nodup →
      pm.get? i = some (some p) → pm.get? j = some (some p) → i = j := by
  induction pm with
  | nil =>
    intro p i j _ hi _
    simp at hi
  | cons o rest ih =>
    intro p i j hnd hi hj
    rcases o with _ | q
    · have hnd2 : (rest.filterMap id).Nodup := by
        simpa [List.filterMap_cons] using hnd
      rcases i with _ | i2
      · simp at hi
      · rcases j with _ | j2
        · simp at hj
        · have := ih p i2 j2 hnd2 (by simpa using hi) (by simpa using hj)
          omega
    · have hnd2 : (q :: rest.filterMap id).Nodup := by
        simpa [List.filterMap_cons] using hnd
      have hq := List.nodup_cons.mp hnd2
      rcases i with _ | i2 <;> rcases j with _ | j2
      · rfl
      · have hqp : q = p := by simpa using hi
        have hpj : (some p) ∈ rest := List.get?_mem (by simpa using hj)
        have hmem : p ∈ rest.filterMap id := List.mem_filterMap.mpr ⟨some p, hpj, rfl⟩
        rw [hqp] at hq
        exact absurd hmem hq.1
      · have hqp : q = p := by simpa using hj
        have hpi : (some p) ∈ rest := List.get?_mem (by simpa using hi)
        have hmem : p ∈ rest.filterMap id := List.mem_filterMap.mpr ⟨some p, hpi, rfl⟩
        rw [hqp] at hq
        exact absurd hmem hq.1
      · have := ih p i2 j2 hq.2 (by simpa using hi) (by simpa using hj)
        omega

theorem get?_zip_eq_some {α β : Type} {l1 : List α} {l2 : List β} {i : Nat}
    {a : α} {b : β} :
    (l1.zip l2).get? i = some (a, b) ↔ l1.get? i = some a ∧ l2.get? i = some b := by
  rw [List.get?_eq_getElem?, List.get?_eq_getElem?, List.get?_eq_getElem?]
  exact List.getElem?_zip_eq_some

/-- The claim of C10, amended with the gadget well-formedness the source
assumes (mapped ports in range — forced by the out-of-range panic in the
counterexample — a slot map of length `2(w+h)` and no port on two slots):
`port_positions` returns a vector of `num_ports` entries in which every port
absent from the slot map sits at the default `(0,0)` and every mapped port
sits at its slot's candidate position. -/
theorem claim10_port_positions_defaults (g : Gadget)
    (hlt : ∀ p ∈ g.port_map.filterMap id, p < g.gdef.num_ports)
    (hlen : g.port_map.length = 2 * (g.size.1 + g.size.2))
    (hnd : (g.port_map.filterMap id).Nodup) :
    ∃ l, g.port_positions = some l ∧
      l.length = g.gdef.num_ports ∧
      (∀ p, p < g.gdef.num_ports → (some p) ∉ g.port_map →
        l.get? p = some ((0 : ℚ), (0 : ℚ))) ∧
      (∀ i p, g.port_map.get? i = some (some p) →
        l.get? p = g.potential_port_positions.get? i) := by
  have hacc0len :
      (List.replicate g.gdef.num_ports ((0 : ℚ), (0 : ℚ))).length =
        g.gdef.num_ports := List.length_replicate _ _
  have hballs : ∀ q pos, (some q, pos) ∈ g.port_map.zip g.potential_port_positions →
      q < (List.replicate g.gdef.num_ports ((0 : ℚ), (0 : ℚ))).length := by
    intro q pos hmem
    rw [hacc0len]
    exact hlt q (List.mem_filterMap.mpr ⟨some q, (List.mem_zip hmem).1, rfl⟩)
  obtain ⟨r, hr, hrlen⟩ := ppAux_some_length _ _ hballs
  refine ⟨r, hr, by rw [hrlen, hacc0len], ?_, ?_⟩
  · intro p hp hnot
    have hnotL : ∀ pos, (some p, pos) ∉ g.port_map.zip g.potential_port_positions :=
      fun pos hmem => hnot (List.mem_zip hmem).1
    rw [ppAux_not_written _ _ r p hr hnotL]
    rw [List.get?_eq_getElem?, List.getElem?_replicate, if_pos hp]
  · intro i p hip
    have hilen : i < g.port_map.length := by
      by_contra hcon
      rw [List.get?_eq_none.mpr (Nat.le_of_not_lt hcon)] at hip
      cases hip
    have hpotlen : i < g.potential_port_positions.length := by
      rw [potential_port_positions_length]
      omega
    rcases hposx : g.potential_port_positions.get? i with _ | pos
    · rw [List.get?_eq_none] at hposx
      omega
    · have hmemL : (some p, pos) ∈ g.port_map.zip g.potential_port_positions := by
        rw [List.mem_iff_get?]
        exact ⟨i, get?_zip_eq_some.mpr ⟨hip, hposx⟩⟩
      have huniq : ∀ pos2,
          (some p, pos2) ∈ g.port_map.zip g.potential_port_positions → pos2 = pos := by
        intro pos2 hmem2
        obtain ⟨i2, hi2⟩ := List.mem_iff_get?.mp hmem2
        obtain ⟨hpm2, hpt2⟩ := get?_zip_eq_some.mp hi2
        have hii : i2 = i := nodup_filterMap_get?_unique g.port_map p i2 i hnd hpm2 hip
        subst hii
        rw [hposx] at hpt2
        exact (Option.some.inj hpt2).symm
      have hplt : p < (List.replicate g.gdef.num_ports ((0 : ℚ), (0 : ℚ))).length := by
        rw [hacc0len]
        exact hlt p (List.mem_filterMap.mpr ⟨some p, List.get?_mem hip, rfl⟩)
      rw [ppAux_written _ _ r p pos hr hmemL huniq hplt]

/-- Witness for C10 at a 1×1 gadget with one mapped port. -/
theorem claim10_port_positions_defaults_witness :
    ∃ l,
      Gadget.port_positions
        { gdef := GadgetDef.new 1 2, size := (1, 1),
          port_map := [some 0, none, none, none], state := 0 } = some l ∧
      l.length = 2 ∧
      (∀ p, p < 2 → (some p) ∉ [some 0, none, none, none] →
        l.get? p = some ((0 : ℚ), (0 : ℚ))) ∧
      (∀ i p, [some 0, none, none, none].get? i = some (some p) →
        l.get? p =
          (Gadget.potential_port_positions
            { gdef := GadgetDef.new 1 2, size := (1, 1),
              port_map := [some 0, none, none, none], state := 0 }).get? i) :=
  claim10_port_positions_defaults
    { gdef := GadgetDef.new 1 2, size := (1, 1),
      port_map := [some 0, none, none, none], state := 0 }
    (by decide) (by decide) (by decide)

/-- Counterexample to C10 as frozen: a gadget whose slot map holds a port id
at or above `num_ports` makes `port_positions` hit the out-of-bounds write
panic (modelled as `none`), so no vector is returned at all. -/
theorem claim10_counterexample_out_of_range_port :
    Gadget.port_positions
      { gdef := GadgetDef.new 1 1, size := (1, 1),
        port_map := [some 5, none, none, none], state := 0 } = none := by
  rfl

theorem slotOfDoubled_lt (wh : WH) (p : XY) (s : Nat)
    (h : slotOfDoubled wh p = some s) : s < 2 * (wh.1 + wh.2) := by
  unfold slotOfDoubled at h
  split_ifs at h with h1 h2 h3 h4 <;> cases h <;> omega

theorem getItemTouchingEdge_spec (g : Grid Gadget) (dxy dir : XY) (idx : Nat)
    (gad : Gadget) (xy : XY) (wh : WH) (slot : Nat)
    (h : g.getItemTouchingEdge dxy dir = some (idx, gad, xy, wh, slot)) :
    g.items idx = some (gad, xy, wh) ∧ slot < 2 * (wh.1 + wh.2) := by
  rw [Grid.getItemTouchingEdge] at h
  rcases hg : g.grid ((dxy.1 + dir.1).fdiv 2, (dxy.2 + dir.2).fdiv 2) with _ | idx0
  · simp only [hg] at h
    cases h
  · simp only [hg] at h
    rcases hi : g.items idx0 with _ | ⟨gad0, xy0, wh0⟩
    · simp only [hi] at h
      cases h
    · simp only [hi] at h
      rcases hs : slotOfDoubled wh0 (dxy.1 - 2 * xy0.1, dxy.2 - 2 * xy0.2)
        with _ | slot0
      · simp only [hs] at h
        cases h
      · simp only [hs, Option.some.injEq, Prod.mk.injEq] at h
        obtain ⟨rfl, rfl, rfl, rfl, rfl⟩ := h
        exact ⟨hi, slotOfDoubled_lt wh0 _ slot0 hs⟩

/-! Helper facts about `port_map_inv` and candidate selection. -/

theorem foldl_pmInvStep_isSome (l : List (Nat × Option Nat)) :
    ∀ (m : Nat → Option Nat) (p : Nat),
      ((∃ i, (i, some p) ∈ l) ∨ (m p).isSome) →
      ((l.foldl pmInvStep m) p).isSome := by
  induction l with
  | nil =>
    intro m p h
    rcases h with ⟨i, hi⟩ | h
    · cases hi
    · exact h
  | cons hd rest ih =>
    intro m p h
    rcases hd with ⟨i0, o⟩
    rcases o with _ | q
    · rw [List.foldl_cons]
      refine ih m p ?_
      rcases h with ⟨i, hi⟩ | h
      · rcases List.mem_cons.mp hi with heq | hmem
        · cases heq
        · exact Or.inl ⟨i, hmem⟩
      · exact Or.inr h
    · rw [List.foldl_cons]
      by_cases hpq : p = q
      · refine ih _ p (Or.inr ?_)
        simp [pmInvStep, hpq]
      · refine ih _ p ?_
        rcases h with ⟨i, hi⟩ | h
        · rcases List.mem_cons.mp hi with heq | hmem
          · rw [Prod.mk.injEq] at heq
            exact absurd (Option.some.inj heq.2) hpq
          · exact Or.inl ⟨i, hmem⟩
        · refine Or.inr ?_
          simpa [pmInvStep, hpq] using h

theorem port_map_inv_isSome (g : Gadget) (p : Nat) (h : (some p) ∈ g.port_map) :
    (g.port_map_inv p).isSome := by
  obtain ⟨n, hn⟩ := List.mem_iff_get?.mp h
  refine foldl_pmInvStep_isSome _ _ p (Or.inl ⟨n, ?_⟩)
  apply List.get?_mem
  rw [List.get?_enum, hn]
  rfl

theorem head?_mem {α : Type} {l : List α} {a : α} (h : l.head? = some a) :
    a ∈ l := by
  cases l with
  | nil => cases h
  | cons x xs =>
    rw [List.head?_cons] at h
    cases Option.some.inj h
    exact List.mem_cons_self _ _

theorem orElse_eq_some_cases {α : Type} {a : Option α} {f : Unit → Option α}
    {x : α} (h : a.orElse f = some x) : a = some x ∨ f () = some x := by
  rcases a with _ | y
  · exact Or.inr h
  · exact Or.inl h

theorem optXor_eq_some {α : Type} {a b : Option α} {x : α}
    (h : optXor a b = some x) : a = some x ∨ b = some x := by
  unfold optXor at h
  rcases a with _ | y <;> rcases b with _ | z
  · cases h
  · exact Or.inr h
  · exact Or.inl h
  · cases h

theorem selectSp_mem (back right front left : List SP) (direction input : XY)
    (sp : SP) (h : selectSp back right front left direction input = some sp) :
    sp ∈ back ∨ sp ∈ right ∨ sp ∈ front ∨ sp ∈ left := by
  unfold selectSp at h
  split_ifs at h
  · rcases orElse_eq_some_cases h with h | h
    · rcases orElse_eq_some_cases h with h | h
      · exact Or.inr (Or.inr (Or.inl (head?_mem h)))
      · rcases optXor_eq_some h with h | h
        · exact Or.inr (Or.inr (Or.inr (head?_mem h)))
        · exact Or.inr (Or.inl (head?_mem h))
    · exact Or.inl (head?_mem h)
  · exact Or.inr (Or.inr (Or.inr (head?_mem h)))
  · exact Or.inr (Or.inl (head?_mem h))

/-- Membership form of the bucket characterization: under a fully mapped
destination set, `targets_from_state_port_brfl` succeeds and each bucket
holds only destinations of the current (state, port). -/
theorem targets_brfl_isSome_mem (g : Gadget) (port : Nat) (direction : XY)
    (hinv : ∀ sp ∈ g.gdef.targets_from_state_port (g.state, port),
      (g.port_map_inv sp.2).isSome) :
    ∃ arr, g.targets_from_state_port_brfl port direction = some arr ∧
      ∀ sp, (sp ∈ arr.back ∨ sp ∈ arr.right ∨ sp ∈ arr.front ∨ sp ∈ arr.left) →
        sp ∈ g.gdef.targets_from_state_port (g.state, port) := by
  obtain ⟨arr, ha, hb⟩ :=
    brflAux_characterization g.port_map_inv g.size.1 g.size.2
      (offsetOfDir direction) (fun sp => (g.port_map_inv sp.2).getD 0)
      (g.gdef.targets_from_state_port (g.state, port)) ⟨[], [], [], []⟩
      (fun sp hmem => by
        rcases hx : g.port_map_inv sp.2 with _ | s
        · exact absurd (hinv sp hmem) (by rw [hx]; simp)
        · show some s = some ((g.port_map_inv sp.2).getD 0)
          rw [hx]
          rfl)
  refine ⟨arr, ha, ?_⟩
  have hmem0 : ∀ k, k < 4 → ∀ sp, sp ∈ arr.bucket k →
      sp ∈ g.gdef.targets_from_state_port (g.state, port) := by
    intro k hk sp hmem
    rw [hb k hk] at hmem
    rcases List.mem_append.mp hmem with hmem | hmem
    · rcases k with _ | _ | _ | _ | k
      · cases hmem
      · cases hmem
      · cases hmem
      · cases hmem
      · cases hmem
    · exact (List.mem_filter.mp hmem).1
  intro sp hmem
  rcases hmem with hmem | hmem | hmem | hmem
  · exact hmem0 0 (by norm_num) sp hmem
  · exact hmem0 1 (by norm_num) sp hmem
  · exact hmem0 2 (by norm_num) sp hmem
  · exact hmem0 3 (by norm_num) sp hmem

theorem targets_mem_traversals (d : GadgetDef) (q : SP) (sp : SP)
    (h : sp ∈ d.targets_from_state_port q) : ∃ t ∈ d.traversals, t.2 = sp := by
  unfold GadgetDef.targets_from_state_port at h
  obtain ⟨t, ht, rfl⟩ := List.mem_map.mp h
  exact ⟨t, (List.mem_filter.mp ht).1, rfl⟩

/-- The claim of C3, amended with the gadget well-formedness the source
assumes (forced by the counterexample, where a traversal to an unmapped port
makes the source's `map[&port]` lookup panic): on a well-formed grid,
`advance` never fails, and whenever the traversal attempt falls through —
no gadget touched, touched slot without a mapped port, or no candidate —
the grid (hence every gadget's state) and the agent are returned unchanged;
state is written only on the fully resolved path. The pure 180° turn (input
opposite facing) flips the facing before any grid query, per spec §4.4
step 1. -/
theorem claim3_advance_total_noop (grid : Grid Gadget) (a : Agent) (input : XY)
    (hwf : grid.WF) :
    ∃ res, a.advance grid input = some res ∧
      (dotEx input a.direction = -1 →
        res = (grid, { a with direction := (-a.direction.1, -a.direction.2) })) ∧
      (dotEx input a.direction ≠ -1 →
        (grid.getItemTouchingEdge a.double_xy a.direction = none →
          res = (grid, a)) ∧
        (∀ idx gad xy wh slot,
          grid.getItemTouchingEdge a.double_xy a.direction =
            some (idx, gad, xy, wh, slot) →
          (gad.port slot = some none → res = (grid, a)) ∧
          (∀ port arr, gad.port slot = some (some port) →
            gad.targets_from_state_port_brfl port a.direction = some arr →
            selectSp arr.back arr.right arr.front arr.left a.direction input =
              none →
            res = (grid, a)))) := by
  by_cases hdot : dotEx input a.direction = -1
  · refine ⟨(grid, { a with direction := (-a.direction.1, -a.direction.2) }),
      ?_, fun _ => rfl, fun hne => absurd hdot hne⟩
    unfold Agent.advance
    rw [if_pos hdot]
  · rcases htouch : grid.getItemTouchingEdge a.double_xy a.direction
      with _ | ⟨idx, gad, xy, wh, slot⟩
    · refine ⟨(grid, a), ?_, fun hcon => absurd hcon hdot,
        fun _ => ⟨fun _ => rfl, ?_⟩⟩
      · unfold Agent.advance
        rw [if_neg hdot]
        simp only [htouch]
      · intro idx gad xy wh slot heq
        cases heq
    · obtain ⟨hitem, hslotlt⟩ :=
        getItemTouchingEdge_spec grid a.double_xy a.direction idx gad xy wh slot
          htouch
      obtain ⟨hwlen, hwlt, hwdest⟩ := hwf idx gad xy wh hitem
      have hslot2 : slot < gad.port_map.length := by
        rw [hwlen]
        exact hslotlt
      rcases hport : gad.port slot with _ | o
      · exfalso
        rw [Gadget.port, List.get?_eq_none] at hport
        omega
      · rcases o with _ | port
        · refine ⟨(grid, a), ?_, fun hcon => absurd hcon hdot,
            fun _ => ⟨?_, ?_⟩⟩
          · unfold Agent.advance
            rw [if_neg hdot]
            simp only [htouch, hport]
          · intro hcon
            cases hcon
          · intro idx2 gad2 xy2 wh2 slot2 heq
            simp only [Option.some.injEq, Prod.mk.injEq] at heq
            obtain ⟨rfl, rfl, rfl, rfl, rfl⟩ := heq
            refine ⟨fun _ => rfl, ?_⟩
            intro port2 arr hport2 _ _
            rw [hport] at hport2
        · have hdest : ∀ sp ∈ gad.gdef.targets_from_state_port (gad.state, port),
              (gad.port_map_inv sp.2).isSome := by
            intro sp hsp
            obtain ⟨t, ht, hteq⟩ :=
              targets_mem_traversals gad.gdef (gad.state, port) sp hsp
            have hmm := hwdest t ht
            rw [congrArg Prod.snd hteq] at hmm
            exact port_map_inv_isSome gad sp.2 hmm
          obtain ⟨arr, harr, hmem⟩ :=
            targets_brfl_isSome_mem gad port a.direction hdest
          rcases hsel : selectSp arr.back arr.right arr.front arr.left
              a.direction input with _ | ⟨s1, p1⟩
          · refine ⟨(grid, a), ?_, fun hcon => absurd hcon hdot,
              fun _ => ⟨?_, ?_⟩⟩
            · unfold Agent.advance
              rw [if_neg hdot]
              simp only [htouch, hport, harr, hsel]
            · intro hcon
              cases hcon
            · intro idx2 gad2 xy2 wh2 slot2 heq
              simp only [Option.some.injEq, Prod.mk.injEq] at heq
              obtain ⟨rfl, rfl, rfl, rfl, rfl⟩ := heq
              constructor
              · intro hcon
                rw [hport] at hcon
              · intro port2 arr2 hport2 harr2 hsel2
                rw [hport] at hport2
          · have hp1mem : (s1, p1) ∈
                gad.gdef.targets_from_state_port (gad.state, port) :=
              hmem (s1, p1) (selectSp_mem _ _ _ _ _ _ _ hsel)
            have hp1pm : (some p1) ∈ gad.port_map := by
              obtain ⟨t, ht, hteq⟩ :=
                targets_mem_traversals gad.gdef (gad.state, port) (s1, p1) hp1mem
              have hmm := hwdest t ht
              rw [congrArg Prod.snd hteq] at hmm
              exact hmm
            have hp1lt : p1 < gad.gdef.num_ports :=
              hwlt p1 (List.mem_filterMap.mpr ⟨some p1, hp1pm, rfl⟩)
            have hballs : ∀ q pos,
                (some q, pos) ∈ gad.port_map.zip gad.potential_port_positions →
                q < (List.replicate gad.gdef.num_ports
                  ((0 : ℚ), (0 : ℚ))).length := by
              intro q pos hmemz
              rw [List.length_replicate]
              exact hwlt q
                (List.mem_filterMap.mpr ⟨some q, (List.mem_zip hmemz).1, rfl⟩)
            obtain ⟨posl, hposl, hposllen⟩ := ppAux_some_length _ _ hballs
            have hposl2 : gad.port_positions = some posl := hposl
            have hlenl : posl.length = gad.gdef.num_ports := by
              rw [hposllen, List.length_replicate]
            rcases hpp : posl.get? p1 with _ | pp
            · rw [List.get?_eq_none] at hpp
              omega
            · have hadv : a.advance grid input =
                  some
                    ({ grid with
                        items := mapInsert grid.items idx ({ gad with state := s1 }, xy, wh) },
                      { a with
                        double_xy := (xy.1 * 2 + ratTrunc (pp.1 * 2), xy.2 * 2 + ratTrunc (pp.2 * 2)),
                        direction := if ratTrunc (pp.1 * 2) % 2 ≠ 0 then (if ratTrunc (pp.2 * 2) = 0 then ((0 : Int), (-1 : Int)) else (0, 1)) else (if ratTrunc (pp.1 * 2) = 0 then ((-1 : Int), (0 : Int)) else (1, 0)) }) := by
                unfold Agent.advance
                rw [if_neg hdot]
                simp only [htouch, hport, harr, hsel, hposl2, hpp]
              refine ⟨_, hadv, fun hcon => absurd hcon hdot,
                fun _ => ⟨?_, ?_⟩⟩
              · intro hcon
                cases hcon
              · intro idx2 gad2 xy2 wh2 slot2 heq
                simp only [Option.some.injEq, Prod.mk.injEq] at heq
                obtain ⟨rfl, rfl, rfl, rfl, rfl⟩ := heq
                constructor
                · intro hcon
                  rw [hport] at hcon
                  exact Option.noConfusion (Option.some.inj hcon)
                · intro port2 arr2 hport2 harr2 hsel2
                  rw [hport] at hport2
                  cases Option.some.inj (Option.some.inj hport2)
                  rw [harr] at harr2
                  cases Option.some.inj harr2
                  rw [hsel] at hsel2
                  cases hsel2

/-- Witness for C3 on a concrete well-formed grid: the spec's end-to-end
gadget (2 states, 2 ports, identity slot map on a 1×1 footprint) placed at
the origin, agent at port 0 facing up, forward input. -/
theorem claim3_advance_total_noop_witness :
    ∃ res,
      Agent.advance ⟨(1, 0), (0, 1)⟩
        (Grid.new.insert
          { gdef := GadgetDef.from_traversals 2 2 [((0, 0), (1, 1)), ((1, 1), (0, 0))],
            size := (1, 1), port_map := [some 0, some 1, none, none], state := 0 }
          (0, 0) (1, 1)) (0, 1) = some res ∧
      (dotEx (0, 1) (0, 1) = -1 →
        res = (Grid.new.insert
          { gdef := GadgetDef.from_traversals 2 2 [((0, 0), (1, 1)), ((1, 1), (0, 0))],
            size := (1, 1), port_map := [some 0, some 1, none, none], state := 0 }
          (0, 0) (1, 1), ⟨(1, 0), (0, -1)⟩)) ∧
      (dotEx (0, 1) (0, 1) ≠ -1 →
        ((Grid.new.insert
          { gdef := GadgetDef.from_traversals 2 2 [((0, 0), (1, 1)), ((1, 1), (0, 0))],
            size := (1, 1), port_map := [some 0, some 1, none, none], state := 0 }
          (0, 0) (1, 1)).getItemTouchingEdge (1, 0) (0, 1) = none →
          res = (Grid.new.insert
            { gdef := GadgetDef.from_traversals 2 2 [((0, 0), (1, 1)), ((1, 1), (0, 0))],
              size := (1, 1), port_map := [some 0, some 1, none, none], state := 0 }
            (0, 0) (1, 1), ⟨(1, 0), (0, 1)⟩)) ∧
        (∀ idx gad xy wh slot,
          (Grid.new.insert
            { gdef := GadgetDef.from_traversals 2 2 [((0, 0), (1, 1)), ((1, 1), (0, 0))],
              size := (1, 1), port_map := [some 0, some 1, none, none], state := 0 }
            (0, 0) (1, 1)).getItemTouchingEdge (1, 0) (0, 1) =
            some (idx, gad, xy, wh, slot) →
          (gad.port slot = some none →
            res = (Grid.new.insert
              { gdef := GadgetDef.from_traversals 2 2
                  [((0, 0), (1, 1)), ((1, 1), (0, 0))],
                size := (1, 1), port_map := [some 0, some 1, none, none], state := 0 }
              (0, 0) (1, 1), ⟨(1, 0), (0, 1)⟩)) ∧
          (∀ port arr, gad.port slot = some (some port) →
            gad.targets_from_state_port_brfl port (0, 1) = some arr →
            selectSp arr.back arr.right arr.front arr.left (0, 1) (0, 1) = none →
            res = (Grid.new.insert
              { gdef := GadgetDef.from_traversals 2 2
                  [((0, 0), (1, 1)), ((1, 1), (0, 0))],
                size := (1, 1), port_map := [some 0, some 1, none, none], state := 0 }
              (0, 0) (1, 1), ⟨(1, 0), (0, 1)⟩)))) := by
  apply claim3_advance_total_noop
  intro idx gad xy wh h
  have hfold : ((footprint (0, 0) (1, 1)).foldl Grid.remove
      (Grid.new (T := Gadget))) = Grid.new := rfl
  have h2 : mapInsert (Grid.new (T := Gadget)).items 0
      ({ gdef := GadgetDef.from_traversals 2 2 [((0, 0), (1, 1)), ((1, 1), (0, 0))],
         size := (1, 1), port_map := [some 0, some 1, none, none], state := 0 },
        ((0 : Int), (0 : Int)), ((1 : Nat), (1 : Nat))) idx = some (gad, xy, wh) := h
  simp only [mapInsert] at h2
  split at h2
  · cases Option.some.inj h2
    refine ⟨by decide, by decide, by decide⟩
  · cases h2

/-- Counterexample to C3 as frozen: a gadget whose only traversal exits at
an unmapped port makes the forward step panic inside
`targets_from_state_port_brfl` (the `map[&port]` lookup), modelled as
`none` — `advance` is not total on arbitrary grids. -/
theorem claim3_counterexample_unmapped_destination :
    Agent.advance ⟨(1, 0), (0, 1)⟩
      (Grid.new.insert
        { gdef := GadgetDef.from_traversals 2 2 [((0, 0), (1, 1))],
          size := (1, 1), port_map := [some 0, none, none, none], state := 0 }
        (0, 0) (1, 1)) (0, 1) = none := by
  rfl

end GadgetUp
